import Mathlib

/-!
Shallow embedding of `recipe_scraping_script.py` (BBC Good Food scraper):
the retrying fetcher, listing paginator, link collector, per-recipe
aggregation loop, nutrition normalization, and the transactional load
phase, together with theorems settling the specification claims.
-/

namespace Scraper

/-! ## Constants from the script -/

/-- `max_retries = 3` (line 22 of the script). -/
def max_retries : Nat := 3

/-- `retry_delay = 5` seconds (line 23 of the script). -/
def retry_delay : Nat := 5

/-- `nutritional_desired_keys` (line 63 of the script): the fixed 8-key
nutrition schema. -/
def nutritional_desired_keys : List String :=
  ["kcal", "fat", "saturates", "carbs", "sugars", "fibre", "protein", "salt"]

/-! ## Listing paginator

`number_of_pages = math.ceil(number_of_recipes / 30)` (line 50).
`math.ceil` of the exact (rational) quotient is embedded as the natural
ceiling of `n / 30` in `ℚ`. -/

/-- Page count computed from the parsed result count, as on line 50 of
the script: the ceiling of `n / 30`. -/
def number_of_pages (n : Nat) : Nat :=
  Nat.ceil ((n : ℚ) / 30)

/-! ## Nutrition normalization (transform phase, lines 167-175)

For each recipe dictionary and each schema key: a missing value stays
`None`; otherwise every key except `kcal` has its final character removed
(`value[:-1]`), and `kcal` is kept verbatim. -/

/-- One cell of the transform loop of lines 168-175: `value = recipe_data.get(key)`;
`None` is appended as `None`; otherwise `value[:-1]` for keys other than
`kcal`, the raw value for `kcal`. -/
def cleanValue (key : String) (value : Option String) : Option String :=
  match value with
  | none => none
  | some v => if key ≠ "kcal" then some (String.mk v.data.dropLast) else some v

/-- The column built for `key` by the transform loop: one entry per recipe
dictionary, in order. -/
def cleanColumn (key : String) (data : List (String → Option String)) : List (Option String) :=
  data.map (fun recipe_data => cleanValue key (recipe_data key))

/-! ## Per-recipe nutrition overlay (lines 122-127)

`recipe_nutritional_values = {key: None for key in nutritional_desired_keys}`
then `for name, value in zip(nutrition_name, nutrition_values): if name.text
in recipe_nutritional_values: recipe_nutritional_values[name.text] = value.text`.
The dictionary is embedded as a function from keys to optional values; its
key set is exactly `nutritional_desired_keys`, so the membership test is
membership in that list. -/

/-- One step of the overlay loop: a single `(name, value)` pair updates the
dictionary when the name is one of the schema keys. -/
def overlayStep (d : String → Option String) (p : String × String) : String → Option String :=
  if p.1 ∈ nutritional_desired_keys then Function.update d p.1 (some p.2) else d

/-- The per-recipe nutrition dictionary after the overlay loop of
lines 122-127: seeded all-`none`, then each positionally zipped
`(name, value)` pair applied in order. -/
def overlayNutrition (names values : List String) : String → Option String :=
  (names.zip values).foldl overlayStep (fun _ => none)

/-! ## Recipe extractor collaborators (external, §6 of the design)

The extractors `get_recipe_name`, `get_recipe_cooking_time`,
`get_recipe_nutritional_values`, `get_recipe_categories`,
`get_recipe_ingredients` are total functions of the fetched document; a
fetched recipe page is embedded as the record of their outputs. -/

/-- The extractor outputs for one successfully fetched recipe page:
name, cooking time, positional nutrition name/value cell lists, the
category map (as an ordered key/status list, keys unique in a Python
dict), and the ingredient list. -/
structure RecipePage where
  name : String
  cookingTime : String
  nutritionNames : List String
  nutritionValues : List String
  categories : List (String × String)
  ingredients : List String
  deriving Repr, DecidableEq

/-! ## Category dictionary (lines 132-137)

`recipe_category_information` is a Python dict mapping a category name to
the list of statuses appended so far, embedded as an insertion-ordered
association list. -/

/-- One iteration of the category loop of lines 133-137: append the status
to an existing column, or create a new single-entry column at the end. -/
def addCategory : List (String × List String) → String → String → List (String × List String)
  | [], cat, status => [(cat, [status])]
  | (c, col) :: rest, cat, status =>
      if c = cat then (c, col ++ [status]) :: rest
      else (c, col) :: addCategory rest cat status

/-- The whole category loop for one recipe: `for category, status in
categories.items(): ...`. -/
def addCategories (d : List (String × List String)) (cats : List (String × String)) :
    List (String × List String) :=
  cats.foldl (fun acc p => addCategory acc p.1 p.2) d

/-- The column stored for a category key: the status list of the first
(and, for a dict, only) entry with that key, `[]` when the key is absent. -/
def getColumn (d : List (String × List String)) (k : String) : List String :=
  match d.find? (fun p => p.1 = k) with
  | none => []
  | some p => p.2

/-! ## Aggregation state and the scraping loops (lines 56-157)

The module-level accumulation lists and the category dict. -/

/-- The mutable accumulation state of the script (lines 56-62). -/
structure ScrapeState where
  used_recipe_links : List String
  recipe_names : List String
  successful_links : List String
  recipe_cooking_times : List String
  recipe_nutritional_data : List (String → Option String)
  recipe_category_information : List (String × List String)
  recipe_ingredients : List (List String)

/-- The initial state: every list and the dict empty. -/
def initState : ScrapeState :=
  ⟨[], [], [], [], [], [], []⟩

/-- Processing of one recipe link (lines 101-157): the fetch either fails
after exhausting retries (`none`: nothing is appended to the record lists,
lines 144-151) or succeeds (`some page`: one entry is appended to each
record list and the category dict is updated, lines 104-143); in both
cases the link is appended to `used_recipe_links` (line 154). -/
def processLink (fetch : String → Option RecipePage) (s : ScrapeState) (link : String) :
    ScrapeState :=
  match fetch link with
  | none =>
      { s with used_recipe_links := s.used_recipe_links ++ [link] }
  | some page =>
      { used_recipe_links := s.used_recipe_links ++ [link]
        recipe_names := s.recipe_names ++ [page.name]
        successful_links := s.successful_links ++ [link]
        recipe_cooking_times := s.recipe_cooking_times ++ [page.cookingTime]
        recipe_nutritional_data := s.recipe_nutritional_data ++
          [overlayNutrition page.nutritionNames page.nutritionValues]
        recipe_category_information := addCategories s.recipe_category_information page.categories
        recipe_ingredients := s.recipe_ingredients ++ [page.ingredients] }

/-- The link collection of lines 93-97: of the links extracted from the
page, keep those not already in `used_recipe_links`, preserving order
(the used list is not updated during this filtering). -/
def collectNewLinks (links used : List String) : List String :=
  links.filter (fun link => decide (link ∉ used))

/-- The page loop of lines 67-157, page fetches assumed successful: each
page contributes its extracted link list; new links are fetched in order.
Returns the final state and the trace of links for which recipe GET
requests were issued. -/
def runFrom (fetch : String → Option RecipePage) :
    ScrapeState → List (List String) → ScrapeState × List String
  | s, [] => (s, [])
  | s, pageLinks :: rest =>
      let newLinks := collectNewLinks pageLinks s.used_recipe_links
      let s' := newLinks.foldl (processLink fetch) s
      let r := runFrom fetch s' rest
      (r.1, newLinks ++ r.2)

/-- A full scraping run over the given per-page link lists. -/
def runScrape (pages : List (List String)) (fetch : String → Option RecipePage) :
    ScrapeState × List String :=
  runFrom fetch initState pages

/-! ## Ingredient rows (lines 211-217)

`recipe_ids = range(1, len(recipe_ingredients) + 1)` zipped against the
per-recipe ingredient lists and flattened into `(recipe_id, ingredient)`
rows. -/

/-- The flattened ingredient rows of line 214. -/
def ingredientRows (recipe_ingredients : List (List String)) : List (Nat × String) :=
  ((List.range' 1 recipe_ingredients.length).zip recipe_ingredients).flatMap
    (fun p => p.2.map (fun ing => (p.1, ing)))

/-- The `recipe_id` column inserted on lines 220-221: the dataframe index
(0-based positions) plus one. -/
def recipeIdColumn (n : Nat) : List Nat :=
  (List.range n).map (· + 1)

/-! ## Page loop with page-fetch failures (lines 71-97)

When a page's retry loop exhausts its attempts it prints "Skipping to the
next page." and breaks out of the retry loop only; control then falls
through to `links = get_recipe_links(soup, base_url)` on line 94. The
variable `soup` is whatever the last successful page fetch assigned — on a
first-page failure it was never assigned and the name lookup raises
`NameError`, aborting the run. The embedding threads the `soup` binding as
an `Option (List String)` (the links extractable from the currently bound
document), initially `none` (unbound). -/

/-- The page loop with explicit page-fetch outcomes. `pageFetch p = none`
means page `p`'s fetch failed after exhausting retries. On failure `soup`
keeps its previous binding; link collection from an unbound `soup` raises
`NameError` and aborts the run. -/
def runPagesWithFailures (pageFetch : Nat → Option (List String))
    (fetch : String → Option RecipePage) :
    List Nat → Option (List String) → ScrapeState → Except String (ScrapeState × List String)
  | [], _, s => .ok (s, [])
  | p :: rest, soupLinks, s =>
      let soup' := match pageFetch p with
        | some links => some links
        | none => soupLinks
      match soup' with
      | none => .error "NameError: name soup is not defined"
      | some links =>
          let newLinks := collectNewLinks links s.used_recipe_links
          let s' := newLinks.foldl (processLink fetch) s
          match runPagesWithFailures pageFetch fetch rest soup' s' with
          | .ok r => .ok (r.1, newLinks ++ r.2)
          | .error e => .error e

/-! ## The retry loop (lines 25-41, 71-87, 102-151)

All three retry loops share the skeleton `for attempt in range(max_retries):
try: <GET>; break; except: if attempt < max_retries - 1: sleep(retry_delay)
else: <give up>`. The observable events of one invocation are embedded as a
trace; `succeeds a` tells whether attempt number `a` (0-based) succeeds. -/

/-- An observable event of the fetch machinery. -/
inductive FetchEvent where
  | getAttempt (attempt : Nat)
  | sleepDelay (seconds : Nat)
  | exitProcess (code : Nat)
  deriving Repr, DecidableEq

/-- The retry loop body, structurally recursive on the remaining iterations
of `range(max_retries)`: issue the GET; on success stop; on failure sleep
`delay` and continue when attempts remain, otherwise give up. Returns the
event trace and whether some attempt succeeded. -/
def retryGo (succeeds : Nat → Bool) (delay : Nat) : Nat → Nat → List FetchEvent × Bool
  | _, 0 => ([], false)
  | attempt, remaining + 1 =>
      if succeeds attempt then ([FetchEvent.getAttempt attempt], true)
      else if remaining = 0 then ([FetchEvent.getAttempt attempt], false)
      else
        let r := retryGo succeeds delay (attempt + 1) remaining
        (FetchEvent.getAttempt attempt :: FetchEvent.sleepDelay delay :: r.1, r.2)

/-- One fetch invocation with the script's constants: at most
`max_retries = 3` attempts, `retry_delay = 5` seconds between failures. -/
def retryFetch (succeeds : Nat → Bool) : List FetchEvent × Bool :=
  retryGo succeeds retry_delay 0 max_retries

/-- The initial listing fetch (lines 25-41): the same retry loop, but on
exhaustion the script calls `exit(1)`. -/
def initialListingFetch (succeeds : Nat → Bool) : List FetchEvent :=
  let r := retryFetch succeeds
  if r.2 then r.1 else r.1 ++ [FetchEvent.exitProcess 1]

/-- The number of GET attempts recorded in a trace. -/
def countAttempts (trace : List FetchEvent) : Nat :=
  trace.countP (fun e => match e with | FetchEvent.getAttempt _ => true | _ => false)

/-! ## The load phase (lines 228-253)

Straight-line code: `trans = Conn.begin()`; three `DELETE` statements in
order `ingredients`, `nutrition`, `recipe_info`; `trans.commit()`; then
three `to_sql(..., if_exists='append')` calls in order `recipe_info`,
`nutrition`, `ingredients` on the engine, outside the committed
transaction. -/

/-- A database operation issued by the load phase. -/
inductive DbOp where
  | beginTrans
  | deleteFrom (table : String)
  | commitTrans
  | appendTo (table : String)
  deriving Repr, DecidableEq

/-- The exact operation sequence of lines 228-253. -/
def loadPhase : List DbOp :=
  [DbOp.beginTrans,
   DbOp.deleteFrom "ingredients",
   DbOp.deleteFrom "nutrition",
   DbOp.deleteFrom "recipe_info",
   DbOp.commitTrans,
   DbOp.appendTo "recipe_info",
   DbOp.appendTo "nutrition",
   DbOp.appendTo "ingredients"]

/-- Whether an operation is a delete. -/
def DbOp.isDelete : DbOp → Bool
  | DbOp.deleteFrom _ => true
  | _ => false

/-- Whether an operation is an append. -/
def DbOp.isAppend : DbOp → Bool
  | DbOp.appendTo _ => true
  | _ => false

/-! ## Characterization lemmas for the scraping loops -/

/-- The successfully fetched recipe pages among a link list, in order. -/
def successes (fetch : String → Option RecipePage) (links : List String) : List RecipePage :=
  links.filterMap fetch

/-- Folding `processLink` over a link list: the used list grows by all
links, each record list grows by one entry per successful fetch, and the
category dict absorbs the successful recipes' category maps in order. -/
theorem foldl_processLink (fetch : String → Option RecipePage) (links : List String)
    (s : ScrapeState) :
    links.foldl (processLink fetch) s =
      { used_recipe_links := s.used_recipe_links ++ links
        recipe_names := s.recipe_names ++ (successes fetch links).map RecipePage.name
        successful_links := s.successful_links ++ links.filter (fun l => (fetch l).isSome)
        recipe_cooking_times := s.recipe_cooking_times ++
          (successes fetch links).map RecipePage.cookingTime
        recipe_nutritional_data := s.recipe_nutritional_data ++
          (successes fetch links).map
            (fun page => overlayNutrition page.nutritionNames page.nutritionValues)
        recipe_category_information := (successes fetch links).foldl
          (fun d page => addCategories d page.categories) s.recipe_category_information
        recipe_ingredients := s.recipe_ingredients ++
          (successes fetch links).map RecipePage.ingredients } := by
  induction links generalizing s with
  | nil => simp [successes]
  | cons link rest ih =>
    cases h : fetch link with
    | none =>
      rw [List.foldl_cons, ih]
      simp [successes, processLink, h, List.filterMap_cons, List.filter_cons]
    | some page =>
      rw [List.foldl_cons, ih]
      simp [successes, processLink, h, List.filterMap_cons, List.filter_cons]

/-- The final state of the page loop is the fold of `processLink` over the
fetch trace. -/
theorem runFrom_fst (fetch : String → Option RecipePage) (pages : List (List String))
    (s : ScrapeState) :
    (runFrom fetch s pages).1 = (runFrom fetch s pages).2.foldl (processLink fetch) s := by
  induction pages generalizing s with
  | nil => simp [runFrom]
  | cons pageLinks rest ih =>
    simp only [runFrom, List.foldl_append]
    exact ih _

/-- The used-links list after a run segment is the prior used list extended
by the fetch trace. -/
theorem runFrom_used (fetch : String → Option RecipePage) (pages : List (List String))
    (s : ScrapeState) :
    (runFrom fetch s pages).1.used_recipe_links =
      s.used_recipe_links ++ (runFrom fetch s pages).2 := by
  rw [runFrom_fst, foldl_processLink]

/-- The final aggregation state of a full run. -/
def finalState (pages : List (List String)) (fetch : String → Option RecipePage) : ScrapeState :=
  (runScrape pages fetch).1

/-- The trace of recipe links for which GET requests were issued during a
full run, in order. -/
def fetchedLinks (pages : List (List String)) (fetch : String → Option RecipePage) :
    List String :=
  (runScrape pages fetch).2

/-- A full run's final state, fully characterized by its fetch trace. -/
theorem finalState_eq (pages : List (List String)) (fetch : String → Option RecipePage) :
    finalState pages fetch =
      { used_recipe_links := fetchedLinks pages fetch
        recipe_names := (successes fetch (fetchedLinks pages fetch)).map RecipePage.name
        successful_links := (fetchedLinks pages fetch).filter (fun l => (fetch l).isSome)
        recipe_cooking_times :=
          (successes fetch (fetchedLinks pages fetch)).map RecipePage.cookingTime
        recipe_nutritional_data := (successes fetch (fetchedLinks pages fetch)).map
          (fun page => overlayNutrition page.nutritionNames page.nutritionValues)
        recipe_category_information := (successes fetch (fetchedLinks pages fetch)).foldl
          (fun d page => addCategories d page.categories) []
        recipe_ingredients :=
          (successes fetch (fetchedLinks pages fetch)).map RecipePage.ingredients } := by
  have h := runFrom_fst fetch pages initState
  rw [foldl_processLink] at h
  simpa [finalState, fetchedLinks, runScrape, initState] using h

/-- Links collected for a page are not in the used list it was filtered
against. -/
theorem collectNewLinks_not_used (links used : List String) :
    ∀ l ∈ collectNewLinks links used, l ∉ used := by
  intro l hl
  have := List.of_mem_filter hl
  simpa using this

/-- The fetch trace of a run segment contains no link from the starting
used list and, when every page's link list is duplicate-free, no
duplicates of its own. -/
theorem runFrom_trace_nodup (fetch : String → Option RecipePage) (pages : List (List String))
    (s : ScrapeState) (h : ∀ p ∈ pages, p.Nodup) :
    (runFrom fetch s pages).2.Nodup ∧
      ∀ l ∈ (runFrom fetch s pages).2, l ∉ s.used_recipe_links := by
  induction pages generalizing s with
  | nil => simp [runFrom]
  | cons pageLinks rest ih =>
    simp only [runFrom]
    have hpage : pageLinks.Nodup := h pageLinks (by simp)
    have hrest : ∀ p ∈ rest, p.Nodup := fun p hp => h p (by simp [hp])
    have hnew : (collectNewLinks pageLinks s.used_recipe_links).Nodup :=
      hpage.filter _
    have hnotused := collectNewLinks_not_used pageLinks s.used_recipe_links
    have hused' : (((collectNewLinks pageLinks s.used_recipe_links)).foldl
        (processLink fetch) s).used_recipe_links =
        s.used_recipe_links ++ collectNewLinks pageLinks s.used_recipe_links := by
      rw [foldl_processLink]
    obtain ⟨ihN, ihU⟩ := ih _ hrest
    rw [hused'] at ihU
    constructor
    · refine List.Nodup.append hnew ihN ?_
      intro l hlnew hltr
      exact ihU l hltr (by simp [hlnew])
    · intro l hl
      rcases List.mem_append.mp hl with hlnew | hltr
      · exact hnotused l hlnew
      · intro hlu
        exact ihU l hltr (by simp [hlu])

/-! ## Category column lemmas -/

/-- `addCategory` extends exactly the column of the key it is given. -/
theorem getColumn_addCategory (d : List (String × List String)) (cat status k : String) :
    getColumn (addCategory d cat status) k =
      if cat = k then getColumn d k ++ [status] else getColumn d k := by
  induction d with
  | nil =>
    by_cases hck : cat = k <;> simp [addCategory, getColumn, List.find?, hck]
  | cons p rest ih =>
    obtain ⟨c, col⟩ := p
    by_cases hc : c = cat
    · subst hc
      by_cases hck : c = k <;> simp [addCategory, getColumn, List.find?, hck]
    · by_cases hk : c = k
      · subst hk
        have hck : cat ≠ c := fun hx => hc hx.symm
        simp [addCategory, hc, getColumn, List.find?, hck]
      · simp only [addCategory, if_neg hc]
        by_cases hck : cat = k <;>
          simpa [getColumn, List.find?, hk, hck] using ih

/-- `addCategories` appends, to the column of `k`, the statuses of exactly
the pairs of the recipe's category map whose key is `k`, in order. -/
theorem getColumn_addCategories (d : List (String × List String))
    (cats : List (String × String)) (k : String) :
    getColumn (addCategories d cats) k =
      getColumn d k ++ (cats.filter (fun p => p.1 = k)).map Prod.snd := by
  induction cats generalizing d with
  | nil => simp [addCategories]
  | cons p rest ih =>
    simp only [addCategories, List.foldl_cons] at *
    rw [ih, getColumn_addCategory]
    by_cases hpk : p.1 = k <;> simp [hpk, List.filter_cons]

/-- Over a list of recipes, the column of `k` collects exactly the
`k`-statuses of the recipes that mention `k`, in recipe order: recipes
processed before the key first appears contribute no entry (no
back-fill). -/
theorem getColumn_foldl (recipes : List RecipePage) (d : List (String × List String))
    (k : String) :
    getColumn (recipes.foldl (fun acc page => addCategories acc page.categories) d) k =
      getColumn d k ++
        recipes.flatMap (fun page => (page.categories.filter (fun p => p.1 = k)).map Prod.snd) := by
  induction recipes generalizing d with
  | nil => simp
  | cons page rest ih =>
    simp only [List.foldl_cons, List.flatMap_cons]
    rw [ih, getColumn_addCategories, List.append_assoc]

/-! ## Ingredient row lemmas -/

/-- Every flattened ingredient row's recipe identifier is between 1 and the
number of per-recipe ingredient lists. -/
theorem ingredientRows_id_bounds (ri : List (List String)) :
    ∀ row ∈ ingredientRows ri, 1 ≤ row.1 ∧ row.1 ≤ ri.length := by
  intro row hrow
  rw [ingredientRows, List.mem_flatMap] at hrow
  obtain ⟨p, hp, hrowp⟩ := hrow
  have hfst : p.1 ∈ List.range' 1 ri.length := (List.of_mem_zip hp).1
  rw [List.mem_range'_1] at hfst
  rw [List.mem_map] at hrowp
  obtain ⟨ing, _, hing⟩ := hrowp
  rw [← hing]
  exact ⟨hfst.1, by omega⟩

/-! ## Arithmetic helpers for column lengths -/

/-- A list of naturals bounded by one sums to at most its length. -/
theorem sum_le_length_of_le_one (l : List Nat) (h : ∀ x ∈ l, x ≤ 1) :
    l.sum ≤ l.length := by
  induction l with
  | nil => simp
  | cons a t ih =>
    have ha : a ≤ 1 := h a (by simp)
    have ht : t.sum ≤ t.length := ih (fun x hx => h x (by simp [hx]))
    simp only [List.sum_cons, List.length_cons]
    omega

/-- A list of naturals bounded by one, containing a zero, sums to strictly
less than its length. -/
theorem sum_lt_length_of_zero_mem (l : List Nat) (h : ∀ x ∈ l, x ≤ 1) (h0 : 0 ∈ l) :
    l.sum < l.length := by
  induction l with
  | nil => simp at h0
  | cons a t ih =>
    have ha : a ≤ 1 := h a (by simp)
    have ht : t.sum ≤ t.length := sum_le_length_of_le_one t (fun x hx => h x (by simp [hx]))
    rcases List.mem_cons.mp h0 with h0a | h0t
    · simp only [List.sum_cons, List.length_cons, ← h0a]
      omega
    · have := ih (fun x hx => h x (by simp [hx])) h0t
      simp only [List.sum_cons, List.length_cons]
      omega

/-- A category map with duplicate-free keys mentions any key in at most one
pair. -/
theorem filter_key_length_le_one (cats : List (String × String)) (k : String)
    (h : (cats.map Prod.fst).Nodup) :
    (cats.filter (fun p => p.1 = k)).length ≤ 1 := by
  induction cats with
  | nil => simp
  | cons c rest ih =>
    simp only [List.map_cons, List.nodup_cons] at h
    by_cases hck : c.1 = k
    · have hrest : rest.filter (fun p => decide (p.1 = k)) = [] := by
        rw [List.filter_eq_nil_iff]
        intro q hq hqk
        simp only [decide_eq_true_eq] at hqk
        have hkmem : k ∈ rest.map Prod.fst := hqk ▸ List.mem_map_of_mem Prod.fst hq
        exact h.1 (hck ▸ hkmem)
      simp [List.filter_cons, hck, hrest]
    · simpa [List.filter_cons, hck] using ih h.2

/-- A category map that does not mention a key contributes no pair with that
key. -/
theorem filter_key_eq_nil (cats : List (String × String)) (k : String)
    (h : k ∉ cats.map Prod.fst) :
    cats.filter (fun p => p.1 = k) = [] := by
  rw [List.filter_eq_nil_iff]
  intro q hq hqk
  simp only [decide_eq_true_eq] at hqk
  exact h (hqk ▸ List.mem_map_of_mem Prod.fst hq)

/-- A filter keeping exactly the elements where a partial function is
defined has the length of the corresponding `filterMap`. -/
theorem length_filterMap_eq_length_filter {α β : Type} (f : α → Option β) (l : List α) :
    (l.filterMap f).length = (l.filter (fun a => (f a).isSome)).length := by
  induction l with
  | nil => simp
  | cons a rest ih =>
    cases h : f a <;> simp [List.filterMap_cons, List.filter_cons, h, ih]

/-! ## Overlay lookup lemma (last matching pair wins) -/

/-- Looking up a schema key after the overlay loop yields the value of the
last zipped pair carrying that key, the seed's value when no pair does, and
the seed's value for a non-schema key. -/
theorem foldl_overlayStep_lookup (pairs : List (String × String))
    (d : String → Option String) (k : String) :
    pairs.foldl overlayStep d k =
      if k ∈ nutritional_desired_keys then
        match pairs.reverse.find? (fun p => p.1 = k) with
        | some q => some q.2
        | none => d k
      else d k := by
  induction pairs using List.reverseRecOn with
  | nil => simp
  | append_singleton ps p ih =>
    obtain ⟨pn, pv⟩ := p
    rw [List.foldl_append, List.foldl_cons, List.foldl_nil, List.reverse_append]
    simp only [List.reverse_cons, List.reverse_nil, List.nil_append, List.singleton_append]
    by_cases hpk : pn = k
    · subst hpk
      by_cases hk : pn ∈ nutritional_desired_keys
      · rw [if_pos hk, List.find?_cons_of_pos _ (by simp)]
        simp [overlayStep, hk, Function.update]
      · rw [if_neg hk]
        have hstep : overlayStep (ps.foldl overlayStep d) (pn, pv) pn =
            ps.foldl overlayStep d pn := by
          simp [overlayStep, hk]
        rw [hstep, ih, if_neg hk]
    · have hstep : overlayStep (ps.foldl overlayStep d) (pn, pv) k =
          ps.foldl overlayStep d k := by
        by_cases hpmem : pn ∈ nutritional_desired_keys
        · have hkp : k ≠ pn := fun hx => hpk hx.symm
          simp [overlayStep, hpmem, Function.update, hkp]
        · simp [overlayStep, hpmem]
      rw [hstep, ih, List.find?_cons_of_neg _ (by simp [hpk])]

/-- Zipping ignores everything beyond the shorter list. -/
theorem zip_eq_zip_take (names values : List String) :
    names.zip values =
      (names.take (min names.length values.length)).zip
        (values.take (min names.length values.length)) := by
  induction names generalizing values with
  | nil => simp
  | cons n ns ih =>
    cases values with
    | nil => simp
    | cons v vs =>
      simp only [List.zip_cons_cons, List.length_cons]
      rw [Nat.succ_min_succ]
      simp only [List.take_succ_cons, List.zip_cons_cons]
      exact congrArg _ (ih vs)

/-! ## Page-count arithmetic -/

/-- The ceiling of `n / 30` agrees with the closed natural-division form. -/
theorem number_of_pages_closed_form (n : Nat) : number_of_pages n = (n + 29) / 30 := by
  unfold number_of_pages
  apply le_antisymm
  · apply Nat.ceil_le.mpr
    rw [div_le_iff₀ (by norm_num : (0 : ℚ) < 30)]
    have h : n ≤ ((n + 29) / 30) * 30 := by omega
    exact_mod_cast h
  · have h := Nat.le_ceil ((n : ℚ) / 30)
    rw [div_le_iff₀ (by norm_num : (0 : ℚ) < 30)] at h
    have h2 : n ≤ Nat.ceil ((n : ℚ) / 30) * 30 := by exact_mod_cast h
    omega

/-! ## Concrete inputs used by witnesses and counterexamples -/

/-- A sample recipe page used by concrete evaluations. -/
def samplePage : RecipePage :=
  { name := "Cake"
    cookingTime := "30 mins"
    nutritionNames := ["kcal", "fat"]
    nutritionValues := ["250", "12g"]
    categories := [("Vegetarian", "Y")]
    ingredients := ["egg", "flour"] }

/-- A second sample recipe page whose category map lacks `Vegetarian`. -/
def samplePageNoCat : RecipePage :=
  { name := "Stew"
    cookingTime := "2 hrs"
    nutritionNames := ["fat"]
    nutritionValues := ["3g"]
    categories := [("Freezable", "N")]
    ingredients := ["beef"] }

/-- A fetch behavior for concrete runs: link `"B"` always fails after its
retries, link `"C"` resolves to the second sample page, anything else to the
first. -/
def sampleFetch : String → Option RecipePage :=
  fun link => if link = "B" then none else if link = "C" then some samplePageNoCat
    else some samplePage

/-! ## Claim theorems -/

/-- Claim C9: the page count is the ceiling of the parsed result count
divided by 30; a result count of 61 gives 3 pages and a result count of 30
gives 1 page. -/
theorem page_count_is_ceiling :
    number_of_pages 61 = 3 ∧ number_of_pages 30 = 1 ∧
      ∀ n : Nat, number_of_pages n = (n + 29) / 30 :=
  ⟨by rw [number_of_pages_closed_form],
   by rw [number_of_pages_closed_form],
   number_of_pages_closed_form⟩

/-- Claim C7: for every key other than `kcal`, a present raw value is
stored with exactly its last character removed (for a nonempty value the
length drops by one, e.g. `"12g"` becomes `"12"`); a `kcal` value is stored
verbatim (`"250"` stays `"250"`); an absent raw value remains absent. -/
theorem nutrition_value_normalization :
    (∀ key v, key ≠ "kcal" →
      cleanValue key (some v) = some (String.mk v.data.dropLast) ∧
        (v ≠ "" → (String.mk v.data.dropLast).length + 1 = v.length)) ∧
    (∀ v, cleanValue "kcal" (some v) = some v) ∧
    (∀ key, cleanValue key none = none) ∧
    cleanValue "fat" (some "12g") = some "12" ∧
    cleanValue "kcal" (some "250") = some "250" := by
  refine ⟨fun key v hkey => ⟨by simp [cleanValue, hkey], fun hv => ?_⟩,
    fun v => by simp [cleanValue], fun key => rfl, by decide, by decide⟩
  obtain ⟨l⟩ := v
  cases l with
  | nil => exact absurd rfl hv
  | cons c t => simp [String.length, List.length_dropLast]

/-- Witness for claim C7: the hypotheses are satisfiable — at key `"fat"`
and raw value `"12g"` the normalization removes exactly the trailing
unit character. -/
theorem nutrition_value_normalization_witness :
    ("fat" : String) ≠ "kcal" ∧
      cleanValue "fat" (some "12g") = some (String.mk "12g".data.dropLast) ∧
      ("12g" : String) ≠ "" ∧
      (String.mk "12g".data.dropLast).length + 1 = ("12g" : String).length := by
  have h := nutrition_value_normalization.1 "fat" "12g" (by decide)
  exact ⟨by decide, h.1, by decide, h.2 (by decide)⟩

/-- Claim C6: the load phase begins a transaction, deletes from
`ingredients`, `nutrition`, `recipe_info` in that order, commits, and only
then appends `recipe_info`, `nutrition`, `ingredients` in that order; every
append comes after the commit and every delete before it, so the appends
are outside the committed delete transaction. -/
theorem load_phase_order :
    loadPhase.head? = some DbOp.beginTrans ∧
    loadPhase.indexOf (DbOp.deleteFrom "ingredients") <
      loadPhase.indexOf (DbOp.deleteFrom "nutrition") ∧
    loadPhase.indexOf (DbOp.deleteFrom "nutrition") <
      loadPhase.indexOf (DbOp.deleteFrom "recipe_info") ∧
    loadPhase.indexOf (DbOp.deleteFrom "recipe_info") < loadPhase.indexOf DbOp.commitTrans ∧
    loadPhase.indexOf DbOp.commitTrans < loadPhase.indexOf (DbOp.appendTo "recipe_info") ∧
    loadPhase.indexOf (DbOp.appendTo "recipe_info") <
      loadPhase.indexOf (DbOp.appendTo "nutrition") ∧
    loadPhase.indexOf (DbOp.appendTo "nutrition") <
      loadPhase.indexOf (DbOp.appendTo "ingredients") ∧
    loadPhase.count DbOp.commitTrans = 1 ∧
    (loadPhase.takeWhile (fun op => op ≠ DbOp.commitTrans)).all
      (fun op => ! DbOp.isAppend op) ∧
    (loadPhase.dropWhile (fun op => op ≠ DbOp.commitTrans)).all
      (fun op => ! DbOp.isDelete op) := by
  decide

/-- Claim C3 is contradicted by the code: when the very first listing
page's fetch fails after exhausting all retries, the script does not skip
the page — it falls through to `get_recipe_links(soup, base_url)` with the
name `soup` still unbound, so the run aborts with a `NameError` instead of
continuing. -/
theorem first_page_failure_aborts :
    runPagesWithFailures (fun _ => none) sampleFetch [1] none initState =
      Except.error "NameError: name soup is not defined" :=
  rfl

/-- Claim C10: name cells pair with value cells strictly by position (the
zip truncates to the shorter list, extra cells are dropped), and for a
schema key the stored value is that of the last zipped pair carrying the
key. -/
theorem nutrition_overlay_positional_last_wins (names values : List String) :
    overlayNutrition names values =
      overlayNutrition (names.take (min names.length values.length))
        (values.take (min names.length values.length)) ∧
    ∀ k ∈ nutritional_desired_keys,
      overlayNutrition names values k =
        ((names.zip values).reverse.find? (fun p => p.1 = k)).map Prod.snd := by
  constructor
  · unfold overlayNutrition
    rw [← zip_eq_zip_take]
  · intro k hk
    rw [overlayNutrition, foldl_overlayStep_lookup, if_pos hk]
    cases (names.zip values).reverse.find? (fun p => decide (p.1 = k)) <;> simp

/-- Witness for claim C10: with the duplicated name cell `"fat"` the later
value `"2g"` overwrites the earlier `"1g"`, and the unmatched extra value
cell is dropped. -/
theorem nutrition_overlay_positional_last_wins_witness :
    ("fat" ∈ nutritional_desired_keys ∧
      overlayNutrition ["fat", "fat"] ["1g", "2g", "3g"] "fat" = some "2g") ∧
    overlayNutrition ["fat", "fat"] ["1g", "2g", "3g"] =
      overlayNutrition ["fat", "fat"] ["1g", "2g"] := by
  have h := nutrition_overlay_positional_last_wins ["fat", "fat"] ["1g", "2g", "3g"]
  refine ⟨⟨by decide, ?_⟩, ?_⟩
  · rw [h.2 "fat" (by decide)]
    decide
  · simpa using h.1

/-- Claim C1: with the extractor collaborators total, every run leaves as
many recipe-info rows (one per entry of `recipe_names`) as nutrition rows
(one per entry of `recipe_nutritional_data`, every cleaned column having
that same length), and every flattened ingredient row carries a recipe
identifier between 1 and the recipe-info row count. -/
theorem recipe_nutrition_row_alignment (pages : List (List String))
    (fetch : String → Option RecipePage) :
    (finalState pages fetch).recipe_names.length =
      (finalState pages fetch).recipe_nutritional_data.length ∧
    (∀ k ∈ nutritional_desired_keys,
      (cleanColumn k (finalState pages fetch).recipe_nutritional_data).length =
        (finalState pages fetch).recipe_names.length) ∧
    ∀ row ∈ ingredientRows (finalState pages fetch).recipe_ingredients,
      1 ≤ row.1 ∧ row.1 ≤ (finalState pages fetch).recipe_names.length := by
  rw [finalState_eq]
  refine ⟨by simp, fun k _ => by simp [cleanColumn], fun row hrow => ?_⟩
  have h := ingredientRows_id_bounds _ row hrow
  simpa using h

/-- Witness for claim C1: a concrete two-page run (with link `"B"` failing)
produces an ingredient row whose identifier is within bounds. -/
theorem recipe_nutrition_row_alignment_witness :
    ((1, "egg") ∈
        ingredientRows (finalState [["A", "B"], ["C"]] sampleFetch).recipe_ingredients) ∧
      1 ≤ (1, "egg").1 ∧
      (1, "egg").1 ≤ (finalState [["A", "B"], ["C"]] sampleFetch).recipe_names.length :=
  ⟨by decide,
   (recipe_nutrition_row_alignment [["A", "B"], ["C"]] sampleFetch).2.2 (1, "egg") (by decide)⟩

/-- Claim C4 as stated is false on the code: when the link collector
returns the same link twice on one page, both occurrences survive the
`used_recipe_links` filter (which is consulted only at collection time)
and the link is fetched twice within the run — the second fetch happens
even though the link is already in the visited list by then. -/
theorem duplicate_link_fetched_twice :
    fetchedLinks [["L", "L"]] sampleFetch = ["L", "L"] ∧
      ¬ (fetchedLinks [["L", "L"]] sampleFetch).count "L" ≤ 1 := by
  decide

/-- Claim C4 amended: a link already in the visited list when a page is
collected is never fetched again from that or any later page, so when no
single page's collected link list contains duplicates, every link is
fetched at most once in the whole run. -/
theorem link_fetched_once_of_nodup_pages (pages : List (List String))
    (fetch : String → Option RecipePage) (h : ∀ p ∈ pages, p.Nodup) :
    (fetchedLinks pages fetch).Nodup :=
  (runFrom_trace_nodup fetch pages initState h).1

/-- Witness for amended claim C4: a concrete run whose second page returns
an already-visited link fetches each link once. -/
theorem link_fetched_once_of_nodup_pages_witness :
    (∀ p ∈ [["A", "B"], ["B", "C"]], p.Nodup) ∧
      (fetchedLinks [["A", "B"], ["B", "C"]] sampleFetch).Nodup :=
  ⟨by decide, link_fetched_once_of_nodup_pages [["A", "B"], ["B", "C"]] sampleFetch (by decide)⟩

/-- Claim C5: recipe identifiers are the 1-based positions of the
successfully processed recipes — the id column of length `n` holds
`i + 1` at index `i`, so ids are gap-free and strictly increasing — and a
link whose fetch fails is fetched (appearing in the trace and the visited
list) but consumes no identifier and reaches no output table, while the
run still completes with one row per successful recipe. -/
theorem identifiers_sequential_and_failures_skipped (pages : List (List String))
    (fetch : String → Option RecipePage) :
    (finalState pages fetch).used_recipe_links = fetchedLinks pages fetch ∧
    (finalState pages fetch).successful_links =
      (fetchedLinks pages fetch).filter (fun l => (fetch l).isSome) ∧
    (finalState pages fetch).recipe_names.length =
      (finalState pages fetch).successful_links.length ∧
    (∀ i, i < (finalState pages fetch).recipe_names.length →
      (recipeIdColumn (finalState pages fetch).recipe_names.length)[i]? = some (i + 1)) ∧
    ∀ l ∈ fetchedLinks pages fetch, fetch l = none →
      l ∈ (finalState pages fetch).used_recipe_links ∧
        l ∉ (finalState pages fetch).successful_links := by
  rw [finalState_eq]
  refine ⟨rfl, rfl, ?_, ?_, ?_⟩
  · simp [successes, length_filterMap_eq_length_filter]
  · intro i hi
    rw [recipeIdColumn, List.getElem?_map, List.getElem?_range]
    · rfl
    · simpa using hi
  · intro l hl hnone
    refine ⟨hl, fun hmem => ?_⟩
    have h := List.of_mem_filter hmem
    rw [hnone] at h
    simp at h

/-- Witness for claim C5: in the concrete run, the failed link `"B"` is in
the visited list but in no output table, and the first identifier is 1. -/
theorem identifiers_sequential_and_failures_skipped_witness :
    ("B" ∈ fetchedLinks [["A", "B"], ["C"]] sampleFetch ∧ sampleFetch "B" = none) ∧
    ("B" ∈ (finalState [["A", "B"], ["C"]] sampleFetch).used_recipe_links ∧
      "B" ∉ (finalState [["A", "B"], ["C"]] sampleFetch).successful_links) ∧
    (0 < (finalState [["A", "B"], ["C"]] sampleFetch).recipe_names.length ∧
      (recipeIdColumn (finalState [["A", "B"], ["C"]] sampleFetch).recipe_names.length)[0]? =
        some 1) := by
  have h := identifiers_sequential_and_failures_skipped [["A", "B"], ["C"]] sampleFetch
  exact ⟨⟨by decide, by decide⟩,
    h.2.2.2.2 "B" (by decide) (by decide),
    by decide, h.2.2.2.1 0 (by decide)⟩

/-- Claim C2: a category key's column collects entries only from the
recipes whose category map mentions the key, in recipe order — a key first
seen at some recipe gets no back-filled entries for earlier recipes — so
whenever (with the duplicate-free keys of a Python dict) some successful
recipe lacks a key that another successful recipe has, that key's column
length differs from the number of successful recipes. -/
theorem category_column_skew (pages : List (List String))
    (fetch : String → Option RecipePage) (k : String) :
    (getColumn (finalState pages fetch).recipe_category_information k =
      (successes fetch (fetchedLinks pages fetch)).flatMap
        (fun page => (page.categories.filter (fun p => p.1 = k)).map Prod.snd)) ∧
    ((∀ page ∈ successes fetch (fetchedLinks pages fetch),
        (page.categories.map Prod.fst).Nodup) →
      (∃ page ∈ successes fetch (fetchedLinks pages fetch),
        k ∉ page.categories.map Prod.fst) →
      (∃ page ∈ successes fetch (fetchedLinks pages fetch),
        k ∈ page.categories.map Prod.fst) →
      (getColumn (finalState pages fetch).recipe_category_information k).length ≠
        (finalState pages fetch).recipe_names.length) := by
  have hcol : getColumn (finalState pages fetch).recipe_category_information k =
      (successes fetch (fetchedLinks pages fetch)).flatMap
        (fun page => (page.categories.filter (fun p => p.1 = k)).map Prod.snd) := by
    rw [finalState_eq]
    have h := getColumn_foldl (successes fetch (fetchedLinks pages fetch)) [] k
    simpa [getColumn] using h
  refine ⟨hcol, fun hnd habs _ => ?_⟩
  rw [hcol]
  have hnames : (finalState pages fetch).recipe_names.length =
      (successes fetch (fetchedLinks pages fetch)).length := by
    rw [finalState_eq]
    simp
  rw [hnames]
  apply Nat.ne_of_lt
  rw [List.length_flatMap]
  have hlen : ((successes fetch (fetchedLinks pages fetch)).map
      (fun page => ((page.categories.filter (fun p => p.1 = k)).map Prod.snd).length)).sum <
      ((successes fetch (fetchedLinks pages fetch)).map
      (fun page => ((page.categories.filter (fun p => p.1 = k)).map Prod.snd).length)).length := by
    apply sum_lt_length_of_zero_mem
    · intro x hx
      rw [List.mem_map] at hx
      obtain ⟨page, hpage, hxval⟩ := hx
      rw [← hxval, List.length_map]
      exact filter_key_length_le_one page.categories k (hnd page hpage)
    · obtain ⟨page, hpage, hmiss⟩ := habs
      rw [List.mem_map]
      exact ⟨page, hpage, by rw [List.length_map, filter_key_eq_nil page.categories k hmiss]; rfl⟩
  calc ((successes fetch (fetchedLinks pages fetch)).map
        (fun page => ((page.categories.filter (fun p => p.1 = k)).map Prod.snd).length)).sum
      < ((successes fetch (fetchedLinks pages fetch)).map
        (fun page => ((page.categories.filter (fun p => p.1 = k)).map Prod.snd).length)).length :=
        hlen
    _ = (successes fetch (fetchedLinks pages fetch)).length := List.length_map _ _

/-- Witness for claim C2: in the concrete run, page `"A"` has the
`Vegetarian` category and page `"C"` lacks it, so the `Vegetarian` column
has 1 entry against 2 successful recipes. -/
theorem category_column_skew_witness :
    (∀ page ∈ successes sampleFetch (fetchedLinks [["A", "B"], ["C"]] sampleFetch),
        (page.categories.map Prod.fst).Nodup) ∧
    (getColumn (finalState [["A", "B"], ["C"]] sampleFetch).recipe_category_information
        "Vegetarian").length ≠
      (finalState [["A", "B"], ["C"]] sampleFetch).recipe_names.length :=
  ⟨by decide,
   (category_column_skew [["A", "B"], ["C"]] sampleFetch "Vegetarian").2
     (by decide) (by decide) (by decide)⟩

/-- Full case analysis of one fetch invocation over the three possible
attempt outcomes. -/
theorem retryFetch_cases (f : Nat → Bool) :
    retryFetch f =
      if f 0 then ([FetchEvent.getAttempt 0], true)
      else if f 1 then
        ([FetchEvent.getAttempt 0, FetchEvent.sleepDelay 5, FetchEvent.getAttempt 1], true)
      else
        ([FetchEvent.getAttempt 0, FetchEvent.sleepDelay 5, FetchEvent.getAttempt 1,
          FetchEvent.sleepDelay 5, FetchEvent.getAttempt 2], f 2) := by
  rw [retryFetch, show max_retries = 2 + 1 from rfl]
  cases h0 : f 0
  · cases h1 : f 1
    · cases h2 : f 2 <;> simp [retryGo, retry_delay, h0, h1, h2]
    · simp [retryGo, retry_delay, h0, h1]
  · simp [retryGo, h0]

/-- Claim C8: each fetch invocation makes at most `max_retries = 3` GET
attempts; every recorded wait lasts `retry_delay = 5` seconds and sits
between two consecutive attempts (an attempt `a + 1` is always preceded in
the trace by attempt `a` and a 5-second wait); and when every attempt
fails the loop stops after exactly 3 attempts, the initial listing fetch
then exiting the process with code 1. -/
theorem retry_attempt_bound (f : Nat → Bool) :
    countAttempts (retryFetch f).1 ≤ max_retries ∧
    (∀ e ∈ (retryFetch f).1, ∀ d : Nat, e = FetchEvent.sleepDelay d → d = retry_delay) ∧
    (∀ a : Nat, FetchEvent.getAttempt (a + 1) ∈ (retryFetch f).1 →
      List.IsInfix [FetchEvent.getAttempt a, FetchEvent.sleepDelay retry_delay,
        FetchEvent.getAttempt (a + 1)] (retryFetch f).1) ∧
    ((retryFetch f).2 = false →
      countAttempts (retryFetch f).1 = max_retries ∧
        initialListingFetch f = (retryFetch f).1 ++ [FetchEvent.exitProcess 1]) := by
  have hc := retryFetch_cases f
  cases h0 : f 0
  · cases h1 : f 1
    · rw [h0, h1] at hc
      simp only [Bool.false_eq_true, if_false] at hc
      have hc1 : (retryFetch f).1 =
          [FetchEvent.getAttempt 0, FetchEvent.sleepDelay 5, FetchEvent.getAttempt 1,
            FetchEvent.sleepDelay 5, FetchEvent.getAttempt 2] := by rw [hc]
      have hc2 : (retryFetch f).2 = f 2 := by rw [hc]
      refine ⟨by rw [hc1]; decide, ?_, ?_, ?_⟩
      · intro e he d hd
        subst hd
        rw [hc1] at he
        simp at he
        simpa [retry_delay] using he
      · intro a ha
        rw [hc1] at ha ⊢
        simp at ha
        rcases ha with h | h
        · have haa : a = 0 := by omega
          subst haa
          decide
        · have haa : a = 1 := by omega
          subst haa
          decide
      · intro hfail
        rw [hc2] at hfail
        refine ⟨by rw [hc1]; decide, ?_⟩
        simp [initialListingFetch, hc1, hc2, hfail]
    · rw [h0, h1] at hc
      simp only [Bool.false_eq_true, if_false, if_true] at hc
      refine ⟨by rw [hc]; decide, ?_, ?_, ?_⟩
      · intro e he d hd
        subst hd
        rw [hc] at he
        simp at he
        simpa [retry_delay] using he
      · intro a ha
        rw [hc] at ha ⊢
        simp at ha
        have haa : a = 0 := by omega
        subst haa
        decide
      · intro hfail
        rw [hc] at hfail
        simp at hfail
  · rw [h0] at hc
    simp only [if_true] at hc
    refine ⟨by rw [hc]; decide, ?_, ?_, ?_⟩
    · intro e he d hd
      subst hd
      rw [hc] at he
      simp at he
    · intro a ha
      rw [hc] at ha
      simp at ha
    · intro hfail
      rw [hc] at hfail
      simp at hfail

/-- Witness for claim C8: with every attempt failing, exactly 3 attempts
are made, the 5-second wait sits between attempts 0 and 1, and the initial
listing fetch exits with code 1. -/
theorem retry_attempt_bound_witness :
    countAttempts (retryFetch (fun _ => false)).1 ≤ max_retries ∧
    (FetchEvent.sleepDelay 5 ∈ (retryFetch (fun _ => false)).1 ∧ 5 = retry_delay) ∧
    List.IsInfix [FetchEvent.getAttempt 0, FetchEvent.sleepDelay retry_delay,
      FetchEvent.getAttempt 1] ((retryFetch (fun _ => false)).1) ∧
    initialListingFetch (fun _ => false) =
      (retryFetch (fun _ => false)).1 ++ [FetchEvent.exitProcess 1] := by
  obtain ⟨h1, h2, h3, h4⟩ := retry_attempt_bound (fun _ => false)
  exact ⟨h1, ⟨by decide, h2 (FetchEvent.sleepDelay 5) (by decide) 5 rfl⟩,
    h3 0 (by decide), (h4 (by decide)).2⟩

end Scraper
